import Mathlib

/-!
Verification of the rate-limiting, retry and pagination layer of the hlbot
Hyperliquid API client. The definitions below are shallow embeddings of the
rate limiter sources: the revision in src/unnamed/part_000 (weight limit 800,
persistence, minimum request gap, 429 backdating) and the revision in
src/src/lib/hyperliquid.ts (weight limit 1100, front-shift pruning).

Conventions: JS `Date.now()` timestamps (milliseconds) are embedded as `Int`,
request weights as `Nat`. Stateful module-level variables (`weightLog`,
`lastRequestTs`) become explicit state threaded through operations.
-/

namespace Hlbot

/-- Constant `WEIGHT_LIMIT` of part_000 line 7 (conservative budget). -/
def WEIGHT_LIMIT : Nat := 800

/-- Constant `WEIGHT_WINDOW_MS` of part_000 line 8: the rolling window. -/
def WEIGHT_WINDOW_MS : Int := 60000

/-- Constant `MIN_REQUEST_GAP_MS` of part_000 line 9: minimum gap between
any two granted requests. -/
def MIN_REQUEST_GAP_MS : Int := 200

/-- One element of the module-level `weightLog` (part_000 line 26):
a request's weight together with the `Date.now()` at which it was recorded. -/
structure WeightEntry where
  weight : Nat
  ts : Int
deriving DecidableEq, Repr

/-- The pruning step inside `consumedWeight` (part_000 lines 53-54) and inside
`loadWeightLog` (line 36): keep exactly the entries with
`e.ts >= cutoff` where `cutoff = now - WEIGHT_WINDOW_MS`. -/
def pruneLog (now : Int) (log : List WeightEntry) : List WeightEntry :=
  log.filter (fun e => now - WEIGHT_WINDOW_MS ≤ e.ts)

/-- The reduction `weightLog.reduce((s, e) => s + e.weight, 0)` of
part_000 line 55: total weight of a log. -/
def sumWeights (log : List WeightEntry) : Nat :=
  (log.map (fun e => e.weight)).sum

/-- Function `consumedWeight` of part_000 lines 52-56: prunes the log in
place and returns the remaining total weight. We return both the sum and
the pruned log (the mutation of the module variable). -/
def consumedWeight (now : Int) (log : List WeightEntry) : Nat × List WeightEntry :=
  let pruned := pruneLog now log
  (sumWeights pruned, pruned)

/-- The front-only pruning loop of hyperliquid.ts line 26:
`while (weightLog.length > 0 && weightLog[0].ts < cutoff) weightLog.shift()`.
Removes leading entries whose timestamp is strictly below the cutoff. -/
def shiftPrune (cutoff : Int) : List WeightEntry → List WeightEntry
  | [] => []
  | e :: rest => if e.ts < cutoff then shiftPrune cutoff rest else e :: rest

/-- Function `onRateLimited` of part_000 lines 59-64: replaces the whole
ledger with one synthetic entry of weight `WEIGHT_LIMIT`, backdated by half
the window (`ts = now - WEIGHT_WINDOW_MS / 2`). -/
def onRateLimited (now : Int) : List WeightEntry :=
  [⟨WEIGHT_LIMIT, now - WEIGHT_WINDOW_MS / 2⟩]

/-- The admission test of `waitForBudget` (part_000 line 70) read at time
`now` against ledger `log`: `used + weight <= WEIGHT_LIMIT` where `used` is
the pruned sum. -/
def grantableAt (weight : Nat) (now : Int) (log : List WeightEntry) : Prop :=
  sumWeights (pruneLog now log) + weight ≤ WEIGHT_LIMIT

instance (w : Nat) (now : Int) (log : List WeightEntry) :
    Decidable (grantableAt w now log) := by
  unfold grantableAt; infer_instance

theorem sumWeights_nil : sumWeights [] = 0 := rfl

theorem sumWeights_cons (e : WeightEntry) (l : List WeightEntry) :
    sumWeights (e :: l) = e.weight + sumWeights l := by
  simp [sumWeights]

theorem sumWeights_append (l₁ l₂ : List WeightEntry) :
    sumWeights (l₁ ++ l₂) = sumWeights l₁ + sumWeights l₂ := by
  simp [sumWeights]

theorem sumWeights_filter_le (p : WeightEntry → Bool) (l : List WeightEntry) :
    sumWeights (l.filter p) ≤ sumWeights l := by
  induction l with
  | nil => simp
  | cons e t ih =>
    rw [List.filter_cons]
    by_cases h : p e = true
    · simp only [h, if_pos, sumWeights_cons]
      omega
    · simp only [h]
      rw [if_neg (by simp [h]), sumWeights_cons]
      omega

theorem pruneLog_pruneLog (t t' : Int) (h : t ≤ t') (l : List WeightEntry) :
    pruneLog t' (pruneLog t l) = pruneLog t' l := by
  unfold pruneLog
  rw [List.filter_filter]
  apply List.filter_congr
  intro e _
  by_cases h2 : t' - WEIGHT_WINDOW_MS ≤ e.ts
  · have h1 : t - WEIGHT_WINDOW_MS ≤ e.ts := by omega
    simp [h1, h2]
  · simp [h2]

theorem pruneLog_append (now : Int) (l₁ l₂ : List WeightEntry) :
    pruneLog now (l₁ ++ l₂) = pruneLog now l₁ ++ pruneLog now l₂ := by
  simp [pruneLog]

/-- Pruning later removes at least as much weight: the consumed sum is
antitone in the query time. -/
theorem sumWeights_pruneLog_antitone (t t' : Int) (h : t ≤ t')
    (l : List WeightEntry) :
    sumWeights (pruneLog t' l) ≤ sumWeights (pruneLog t l) := by
  rw [← pruneLog_pruneLog t t' h l]
  exact sumWeights_filter_le _ _

/-- C3: after `onRateLimited` at time `n`, a subsequent `waitForBudget(2)`
with no other admissions in between is not grantable while the synthetic
backdated entry is still inside the window (`t ≤ n + WEIGHT_WINDOW_MS / 2`),
becomes grantable as soon as it ages out (`n + WEIGHT_WINDOW_MS / 2 < t`),
and that recovery point is strictly before a full window has elapsed since
the 429. -/
theorem rate_limit_recovery_halves_wait (n t : Int) :
    (t ≤ n + WEIGHT_WINDOW_MS / 2 → ¬ grantableAt 2 t (onRateLimited n)) ∧
    (n + WEIGHT_WINDOW_MS / 2 < t → grantableAt 2 t (onRateLimited n)) ∧
    n + WEIGHT_WINDOW_MS / 2 + 1 < n + WEIGHT_WINDOW_MS := by
  refine ⟨?_, ?_, by simp only [WEIGHT_WINDOW_MS]; omega⟩
  · intro h
    have hc : t - WEIGHT_WINDOW_MS ≤ n - WEIGHT_WINDOW_MS / 2 := by
      simp only [WEIGHT_WINDOW_MS] at h ⊢
      omega
    have hp : pruneLog t (onRateLimited n) = onRateLimited n := by
      unfold pruneLog onRateLimited
      rw [List.filter_cons, if_pos]
      · rfl
      · exact decide_eq_true hc
    unfold grantableAt
    rw [hp]
    have hs : sumWeights (onRateLimited n) = WEIGHT_LIMIT := by
      simp [onRateLimited, sumWeights]
    rw [hs]
    decide
  · intro h
    have hc : ¬ (t - WEIGHT_WINDOW_MS ≤ n - WEIGHT_WINDOW_MS / 2) := by
      simp only [WEIGHT_WINDOW_MS] at h ⊢
      omega
    have hp : pruneLog t (onRateLimited n) = [] := by
      unfold pruneLog onRateLimited
      rw [List.filter_cons, if_neg]
      · rfl
      · simp only [decide_eq_true_eq]
        exact hc
    unfold grantableAt
    rw [hp]
    decide

theorem rate_limit_recovery_halves_wait_witness :
    grantableAt 2 30001 (onRateLimited 0) :=
  (rate_limit_recovery_halves_wait 0 30001).2.1 (by norm_num [WEIGHT_WINDOW_MS])

/-- C5 counterexample: an entry recorded at timestamp 0 still contributes its
full weight to `consumedWeight` at the exact boundary instant
`now = ts + WEIGHT_WINDOW_MS` (the filter keeps `ts >= now - window`), so at
the boundary it does not contribute nothing as claimed. -/
theorem window_boundary_counterexample :
    (consumedWeight (0 + WEIGHT_WINDOW_MS) [⟨5, 0⟩]).1 = 5 ∧ (5 : Nat) ≠ 0 := by
  constructor <;> decide

/-- C5 (amended): an entry with timestamp `t` is excluded from the pruning in
`consumedWeight` for every query time `now > t + WEIGHT_WINDOW_MS` (strict),
and is included for every `now ≤ t + WEIGHT_WINDOW_MS`, the exact boundary
instant included. -/
theorem window_pruning_boundary (w : Nat) (t now : Int) (log : List WeightEntry)
    (hmem : (⟨w, t⟩ : WeightEntry) ∈ log) :
    (t + WEIGHT_WINDOW_MS < now → (⟨w, t⟩ : WeightEntry) ∉ pruneLog now log) ∧
    (now ≤ t + WEIGHT_WINDOW_MS → (⟨w, t⟩ : WeightEntry) ∈ pruneLog now log) := by
  constructor
  · intro h hc
    rw [pruneLog, List.mem_filter] at hc
    have h2 := hc.2
    simp only [decide_eq_true_eq] at h2
    omega
  · intro h
    rw [pruneLog, List.mem_filter]
    refine ⟨hmem, ?_⟩
    simp only [decide_eq_true_eq]
    omega

theorem window_pruning_boundary_witness :
    (⟨5, 0⟩ : WeightEntry) ∈ pruneLog 60000 [⟨5, 0⟩] :=
  (window_pruning_boundary 5 0 60000 [⟨5, 0⟩] (by simp)).2 (by decide)

/-- The mutable module-level state of part_000 relevant to `waitForBudget`:
`weightLog` (line 27) and `lastRequestTs` (line 28). -/
structure GateState where
  weightLog : List WeightEntry
  lastRequestTs : Int
deriving Repr

/-- Module initialisation: empty log and `lastRequestTs = 0` (part_000
lines 27-28, when the durable store holds nothing usable). -/
def initialGate : GateState := ⟨[], 0⟩

/-- One complete, uninterrupted execution of the granting branch of
`waitForBudget` (part_000 lines 69-80): `consumedWeight()` prunes the log at
check time `tc`, and the entry is recorded and `lastRequestTs` assigned at
record time `tr` (after the optional minimum-gap sleep). -/
def admitGrant (w : Nat) (tc tr : Int) (s : GateState) : GateState :=
  ⟨pruneLog tc s.weightLog ++ [⟨w, tr⟩], tr⟩

/-- Side conditions under which part_000 lines 69-80 take the granting branch
with check time `tc` and record time `tr`: the budget test of line 70 passes,
and `tr` reflects the minimum-gap logic of lines 72-77. With
`gap = tc - lastRequestTs`: if `gap ≥ MIN_REQUEST_GAP_MS` the entry is
recorded in the same tick (`tr = tc`); otherwise the caller sleeps the
remainder and records no earlier than `lastRequestTs + MIN_REQUEST_GAP_MS`. -/
def admitEnabled (w : Nat) (tc tr : Int) (s : GateState) : Prop :=
  sumWeights (pruneLog tc s.weightLog) + w ≤ WEIGHT_LIMIT ∧
  (MIN_REQUEST_GAP_MS ≤ tc - s.lastRequestTs → tr = tc) ∧
  (tc - s.lastRequestTs < MIN_REQUEST_GAP_MS →
    s.lastRequestTs + MIN_REQUEST_GAP_MS ≤ tr)

/-- Serialized operations touching the limiter state: a granted admission
(`waitForBudget`), a 429 mark (`onRateLimited`), or a bare `consumedWeight`
pruning pass (as performed by non-granting iterations of the wait loop). -/
inductive GateOp where
  | admission (w : Nat) (tc tr : Int)
  | rateLimited (t : Int)
  | prune (t : Int)
deriving Repr

def GateOp.startTime : GateOp → Int
  | .admission _ tc _ => tc
  | .rateLimited t => t
  | .prune t => t

def GateOp.endTime : GateOp → Int
  | .admission _ _ tr => tr
  | .rateLimited t => t
  | .prune t => t

def applyGateOp (s : GateState) : GateOp → GateState
  | .admission w tc tr => admitGrant w tc tr s
  | .rateLimited t => ⟨onRateLimited t, s.lastRequestTs⟩
  | .prune t => ⟨pruneLog t s.weightLog, s.lastRequestTs⟩

def runGateOps (s : GateState) (ops : List GateOp) : GateState :=
  ops.foldl applyGateOp s

/-- A serialized trace from state `s` at clock `c`: operations execute one
after another (no other limiter activity between an admission's budget check
and its record), wall-clock times never decrease, and every admission
satisfies the granting branch's side conditions. -/
def ValidFrom (s : GateState) (c : Int) : List GateOp → Prop
  | [] => True
  | op :: rest =>
    c ≤ op.startTime ∧ op.startTime ≤ op.endTime ∧
    (match op with
     | .admission w tc tr => admitEnabled w tc tr s
     | _ => True) ∧
    ValidFrom (applyGateOp s op) op.endTime rest

def gateTraceEnd (c : Int) : List GateOp → Int
  | [] => c
  | op :: rest => gateTraceEnd op.endTime rest

/-- Budget soundness of a ledger at clock `c`: at every instant from `c` on,
the in-window consumed weight stays within `WEIGHT_LIMIT`. -/
def BudgetOK (c : Int) (log : List WeightEntry) : Prop :=
  ∀ now, c ≤ now → sumWeights (pruneLog now log) ≤ WEIGHT_LIMIT

theorem budgetOK_admit (w : Nat) (tc tr : Int) (s : GateState)
    (htc : tc ≤ tr) (hen : admitEnabled w tc tr s) :
    BudgetOK tr (admitGrant w tc tr s).weightLog := by
  intro now hnow
  have h1 : sumWeights (pruneLog now (pruneLog tc s.weightLog))
      ≤ sumWeights (pruneLog tc s.weightLog) := by
    calc sumWeights (pruneLog now (pruneLog tc s.weightLog))
        ≤ sumWeights (pruneLog tc (pruneLog tc s.weightLog)) :=
          sumWeights_pruneLog_antitone tc now (le_trans htc hnow) _
      _ = sumWeights (pruneLog tc s.weightLog) := by
          rw [pruneLog_pruneLog tc tc le_rfl]
  have h2 : sumWeights (pruneLog now [⟨w, tr⟩]) ≤ w := by
    unfold pruneLog
    rw [List.filter_cons]
    by_cases hc : now - WEIGHT_WINDOW_MS ≤ tr
    · rw [if_pos (decide_eq_true hc)]
      simp [sumWeights]
    · rw [if_neg (by simp only [decide_eq_true_eq]; exact hc)]
      simp [sumWeights]
  show sumWeights (pruneLog now (pruneLog tc s.weightLog ++ [⟨w, tr⟩])) ≤ WEIGHT_LIMIT
  rw [pruneLog_append, sumWeights_append]
  have h3 := hen.1
  omega

theorem budgetOK_rateLimited (t : Int) : BudgetOK t (onRateLimited t) := by
  intro now _
  have h1 := sumWeights_filter_le
    (fun e => decide (now - WEIGHT_WINDOW_MS ≤ e.ts)) (onRateLimited t)
  have h2 : sumWeights (onRateLimited t) = WEIGHT_LIMIT := by
    simp [onRateLimited, sumWeights]
  unfold pruneLog
  omega

theorem budgetOK_prune (t c : Int) (log : List WeightEntry) (hc : c ≤ t)
    (hB : BudgetOK c log) : BudgetOK t (pruneLog t log) := by
  intro now hnow
  rw [pruneLog_pruneLog t now hnow log]
  exact hB now (le_trans hc hnow)

theorem budget_invariant_aux (ops : List GateOp) :
    ∀ (s : GateState) (c : Int), BudgetOK c s.weightLog → ValidFrom s c ops →
      BudgetOK (gateTraceEnd c ops) (runGateOps s ops).weightLog := by
  induction ops with
  | nil =>
    intro s c hB _
    exact hB
  | cons op rest ih =>
    intro s c hB hV
    simp only [ValidFrom] at hV
    obtain ⟨h1, h2, h3, h4⟩ := hV
    have hstep : BudgetOK op.endTime (applyGateOp s op).weightLog := by
      cases op with
      | admission w tc tr => exact budgetOK_admit w tc tr s h2 h3
      | rateLimited t => exact budgetOK_rateLimited t
      | prune t => exact budgetOK_prune t c s.weightLog h1 hB
    exact ih (applyGateOp s op) op.endTime hstep h4

/-- C1 (amended): the rolling-window budget is never exceeded by any
serialized sequence of `waitForBudget` admissions, `onRateLimited` marks and
`consumedWeight` prunings: at every instant after the trace, the in-window
consumed weight is at most `WEIGHT_LIMIT`. (The unqualified claim, with
admissions interleaving at the minimum-gap sleep, is refuted by
`budget_exceeded_counterexample`.) -/
theorem budget_never_exceeded_serialized (ops : List GateOp)
    (hV : ValidFrom initialGate 0 ops) (now : Int)
    (hnow : gateTraceEnd 0 ops ≤ now) :
    sumWeights (pruneLog now (runGateOps initialGate ops).weightLog)
      ≤ WEIGHT_LIMIT := by
  have h0 : BudgetOK 0 initialGate.weightLog := by
    intro m _
    simp [initialGate, pruneLog, sumWeights]
  exact budget_invariant_aux ops initialGate 0 h0 hV now hnow

/-- Witness for C1 (amended): a single admission of weight 20 checked and
recorded at t = 200 keeps the consumed weight at 20 ≤ 800 at t = 300. -/
theorem budget_never_exceeded_serialized_witness :
    sumWeights (pruneLog 300
      (runGateOps initialGate [GateOp.admission 20 200 200]).weightLog)
      ≤ WEIGHT_LIMIT := by
  have hV : ValidFrom initialGate 0 [GateOp.admission 20 200 200] := by
    refine ⟨by decide, by decide, ⟨by decide, fun _ => rfl, ?_⟩, trivial⟩
    intro h
    exact absurd h (by decide)
  exact budget_never_exceeded_serialized [GateOp.admission 20 200 200] hV 300 (by decide)

/-- Grant timestamps (the successive values assigned to `lastRequestTs` at
part_000 line 77) of the admissions in a serialized trace, in order. -/
def grantTimes : List GateOp → List Int
  | [] => []
  | .admission _ _ tr :: rest => tr :: grantTimes rest
  | .rateLimited _ :: rest => grantTimes rest
  | .prune _ :: rest => grantTimes rest

theorem grant_spacing_aux (ops : List GateOp) :
    ∀ (s : GateState) (c : Int), ValidFrom s c ops →
      List.Chain (fun a b => a + MIN_REQUEST_GAP_MS ≤ b)
        s.lastRequestTs (grantTimes ops) := by
  induction ops with
  | nil =>
    intro s c _
    exact List.Chain.nil
  | cons op rest ih =>
    intro s c hV
    simp only [ValidFrom] at hV
    obtain ⟨h1, h2, h3, h4⟩ := hV
    cases op with
    | admission w tc tr =>
      have hgap : s.lastRequestTs + MIN_REQUEST_GAP_MS ≤ tr := by
        obtain ⟨_, hg1, hg2⟩ := h3
        by_cases hc : MIN_REQUEST_GAP_MS ≤ tc - s.lastRequestTs
        · have := hg1 hc
          omega
        · exact hg2 (by omega)
      exact List.Chain.cons hgap
        (ih (applyGateOp s (GateOp.admission w tc tr)) (GateOp.admission w tc tr).endTime h4)
    | rateLimited t =>
      exact ih (applyGateOp s (GateOp.rateLimited t)) (GateOp.rateLimited t).endTime h4
    | prune t =>
      exact ih (applyGateOp s (GateOp.prune t)) (GateOp.prune t).endTime h4

/-- C4 (amended): in any serialized trace of admissions, any two consecutive
grant timestamps are at least `MIN_REQUEST_GAP_MS` apart (the very first
grant excepted, having no predecessor). (The unqualified claim, quantifying
over every interleaving of concurrent callers, is refuted by
`min_spacing_counterexample`.) -/
theorem min_spacing_serialized (ops : List GateOp)
    (hV : ValidFrom initialGate 0 ops) :
    List.Chain' (fun a b => a + MIN_REQUEST_GAP_MS ≤ b) (grantTimes ops) := by
  have h : List.Chain' (fun a b => a + MIN_REQUEST_GAP_MS ≤ b)
      (initialGate.lastRequestTs :: grantTimes ops) :=
    grant_spacing_aux ops initialGate 0 hV
  exact h.tail

/-- Witness for C4 (amended): two serialized admissions recorded at t = 200
and t = 400 are 200ms apart. -/
theorem min_spacing_serialized_witness :
    List.Chain' (fun a b => a + MIN_REQUEST_GAP_MS ≤ b)
      (grantTimes [GateOp.admission 20 200 200, GateOp.admission 20 400 400]) := by
  have hV : ValidFrom initialGate 0
      [GateOp.admission 20 200 200, GateOp.admission 20 400 400] := by
    refine ⟨by decide, by decide, ⟨by decide, fun _ => rfl, ?_⟩,
      by decide, by decide, ⟨by decide, fun _ => rfl, ?_⟩, trivial⟩
    · intro h
      exact absurd h (by decide)
    · intro h
      exact absurd h (by decide)
  exact min_spacing_serialized [GateOp.admission 20 200 200, GateOp.admission 20 400 400] hV

/-- A caller suspended inside the minimum-gap sleep of `waitForBudget`
(part_000 line 75): it has already passed the budget check of line 70, its
entry is not yet recorded, and its timer fires no earlier than `wake`. -/
structure Sleeper where
  weight : Nat
  wake : Int
deriving Repr, DecidableEq

/-- Global state of the cooperative event-loop scheduler: the limiter
state, the wall clock, the suspended callers, and the grant timestamps
issued so far. -/
structure SchedState where
  log : List WeightEntry
  lastTs : Int
  clock : Int
  pending : List Sleeper
  grants : List Int
deriving Repr

def initialSched : SchedState := ⟨[], 0, 0, [], []⟩

/-- Atomic segments of `waitForBudget` between suspension points under the
cooperative scheduler. `checkGrant w t`: one loop iteration at time `t` that
passes the budget check with `gap ≥ MIN_REQUEST_GAP_MS` and records
synchronously (no suspension between check and record). `checkSleep w t`: an
iteration that passes the budget check but finds `gap < MIN_REQUEST_GAP_MS`
and suspends in the sleep of line 75 — line 54 has already replaced the log
by its pruned form. `wakeUp i t`: the i-th suspended caller resumes at time
`t` (no earlier than its timer) and runs lines 77-79 — assign
`lastRequestTs`, push the entry — without re-checking the budget. -/
inductive SchedEv where
  | checkGrant (w : Nat) (t : Int)
  | checkSleep (w : Nat) (t : Int)
  | wakeUp (i : Nat) (t : Int)
deriving Repr

def schedStep (s : SchedState) : SchedEv → Option SchedState
  | .checkGrant w t =>
    let pruned := pruneLog t s.log
    if s.clock ≤ t ∧ sumWeights pruned + w ≤ WEIGHT_LIMIT ∧
        MIN_REQUEST_GAP_MS ≤ t - s.lastTs then
      some ⟨pruned ++ [⟨w, t⟩], t, t, s.pending, s.grants ++ [t]⟩
    else none
  | .checkSleep w t =>
    let pruned := pruneLog t s.log
    if s.clock ≤ t ∧ sumWeights pruned + w ≤ WEIGHT_LIMIT ∧
        t - s.lastTs < MIN_REQUEST_GAP_MS then
      some ⟨pruned, s.lastTs, t,
        s.pending ++ [⟨w, s.lastTs + MIN_REQUEST_GAP_MS⟩], s.grants⟩
    else none
  | .wakeUp i t =>
    match s.pending.get? i with
    | none => none
    | some sl =>
      if s.clock ≤ t ∧ sl.wake ≤ t then
        some ⟨s.log ++ [⟨sl.weight, t⟩], t, t,
          s.pending.eraseIdx i, s.grants ++ [t]⟩
      else none

def runSched (s : SchedState) : List SchedEv → Option SchedState
  | [] => some s
  | ev :: rest =>
    match schedStep s ev with
    | none => none
    | some s' => runSched s' rest

/-- Consumed in-window weight of a scheduler state at time `t`. -/
def consumedAt (t : Int) (s : SchedState) : Nat := sumWeights (pruneLog t s.log)

/-- Thirty-nine serialized heavy admissions 200ms apart fill 780 of the 800
budget; then two concurrent callers both pass the budget check at used = 780
(each seeing 780 + 20 ≤ 800), both suspend in the minimum-gap sleep, and
both record after waking. -/
def overlapTrace : List SchedEv :=
  (List.range 39).map (fun i => SchedEv.checkGrant 20 (200 * ((i : Int) + 1))) ++
  [SchedEv.checkSleep 20 7900, SchedEv.checkSleep 20 7950,
   SchedEv.wakeUp 0 8000, SchedEv.wakeUp 0 8050]

/-- C1 counterexample: under the cooperative scheduler, two `waitForBudget`
callers can interleave their consumed-then-record sequences at the
minimum-gap sleep of part_000 line 75, driving the in-window consumed weight
to 820 > WEIGHT_LIMIT = 800; the budget invariant does not hold for every
interleaving, and the claimed strict serialization of admit calls fails. -/
theorem budget_exceeded_counterexample :
    (runSched initialSched overlapTrace).map (consumedAt 8050) = some 820 ∧
    WEIGHT_LIMIT < 820 := by
  constructor
  · rfl
  · decide

/-- Two light callers both enter the minimum-gap sleep before either records,
then wake 10ms apart. -/
def spacingTrace : List SchedEv :=
  [SchedEv.checkSleep 2 10, SchedEv.checkSleep 2 20,
   SchedEv.wakeUp 0 200, SchedEv.wakeUp 0 210]

/-- C4 counterexample: with two callers suspended concurrently in the
minimum-gap sleep, consecutive grants are issued at t = 200 and t = 210,
only 10ms < MIN_REQUEST_GAP_MS apart. -/
theorem min_spacing_counterexample :
    (runSched initialSched spacingTrace).map SchedState.grants = some [200, 210] ∧
    (210 : Int) - 200 < MIN_REQUEST_GAP_MS := by
  constructor
  · rfl
  · decide

/-- Constant `maxRetries` of part_000 line 169. -/
def maxRetries : Nat := 3

/-- Outcome of one `fetch` attempt as observed by `postInfo`: an HTTP
response with a status code, a rejection with the abort error (the timeout
timer fired), or another transport-level rejection carrying its message. -/
inductive FetchOutcome where
  | resp (status : Nat)
  | abortError
  | reject (msg : String)

/-- Observable result of `postInfo`: the parsed body is returned (success),
or an `Error` with the given message propagates to the caller.
`fellThrough` marks the fall-through of the retry loop (unreachable, since
the last iteration always returns or throws). -/
inductive PostOutcome where
  | success
  | failure (msg : String)
  | fellThrough
deriving DecidableEq, Repr

/-- Message of the error thrown at part_000 line 190. -/
def rateLimitedMsg (n : Nat) : String :=
  "API rate limited (429) after " ++ toString n ++ " retries"

/-- Message of the error thrown at part_000 line 192. -/
def apiErrorMsg (status : Nat) : String := "API error: " ++ toString status

/-- Message of the error thrown at part_000 line 197. -/
def timeoutMsg (ms : Nat) : String := "API timeout after " ++ toString ms ++ "ms"

/-- JS substring containment on character lists. -/
def charsContain : List Char → List Char → Bool
  | _, [] => true
  | [], _ :: _ => false
  | c :: rest, pat => pat.isPrefixOf (c :: rest) || charsContain rest pat

/-- JS `msg.includes(pat)`, as used at part_000 line 199. -/
def strContains (msg pat : String) : Bool := charsContain msg.toList pat.toList

/-- JS `res.ok`: the status is in the 2xx range. -/
def resOk (status : Nat) : Bool := 200 ≤ status && status ≤ 299

/-- The retry loop of `postInfo` (part_000 lines 170-206), one iteration per
call: `attempt` is the loop counter and `fuel` the remaining iterations
(`maxRetries + 1 - attempt`). The transport maps an attempt index to that
attempt's `fetch` outcome. Returns the final outcome together with the
number of HTTP attempts performed. On 429 the loop retries while
`attempt < maxRetries`, else throws the rate-limited error (rethrown by the
catch since `attempt < maxRetries` fails); on another non-2xx it throws the
`API error` message, which the catch rethrows unless it contains the
substring 429 with retries remaining; an abort becomes the timeout error;
any other rejection is rethrown unless its message contains 429 with
retries remaining. -/
def postInfoGo (transport : Nat → FetchOutcome) : Nat → Nat → PostOutcome × Nat
  | _, 0 => (.fellThrough, 0)
  | attempt, fuel + 1 =>
    match transport attempt with
    | .resp status =>
      if status = 429 then
        if attempt < maxRetries then
          let r := postInfoGo transport (attempt + 1) fuel
          (r.1, r.2 + 1)
        else (.failure (rateLimitedMsg maxRetries), 1)
      else if resOk status then (.success, 1)
      else if attempt < maxRetries && strContains (apiErrorMsg status) "429" then
        let r := postInfoGo transport (attempt + 1) fuel
        (r.1, r.2 + 1)
      else (.failure (apiErrorMsg status), 1)
    | .abortError => (.failure (timeoutMsg 15000), 1)
    | .reject m =>
      if attempt < maxRetries && strContains m "429" then
        let r := postInfoGo transport (attempt + 1) fuel
        (r.1, r.2 + 1)
      else (.failure m, 1)

/-- Function `postInfo` of part_000 lines 165-207, abstracted over the
transport: the retry loop from attempt 0. The `waitForBudget` acquisitions
before the first attempt and between 429 retries, and the `onRateLimited`
ledger mark, affect timing and the ledger only, never the attempt count or
the outcome, and are treated by the limiter theorems above. -/
def postInfo (transport : Nat → FetchOutcome) : PostOutcome × Nat :=
  postInfoGo transport 0 (maxRetries + 1)

/-- C2: if the transport returns HTTP 429 on every attempt, `postInfo`
performs exactly `maxRetries + 1 = 4` HTTP attempts and then fails with the
rate-limited error naming 3 retries; it never performs a fifth attempt. -/
theorem retry_ceiling_respected (transport : Nat → FetchOutcome)
    (h : ∀ n, transport n = FetchOutcome.resp 429) :
    postInfo transport =
      (PostOutcome.failure "API rate limited (429) after 3 retries", 4) := by
  have e : rateLimitedMsg 3 = "API rate limited (429) after 3 retries" := rfl
  simp [postInfo, postInfoGo, h, maxRetries, e]

/-- Constant transport returning the same HTTP status on every attempt. -/
def alwaysStatus (status : Nat) : Nat → FetchOutcome :=
  fun _ => FetchOutcome.resp status

/-- Witness for C2 at the transport that always answers 429. -/
theorem retry_ceiling_respected_witness :
    postInfo (alwaysStatus 429) =
      (PostOutcome.failure "API rate limited (429) after 3 retries", 4) :=
  retry_ceiling_respected (alwaysStatus 429) (fun _ => rfl)

set_option maxRecDepth 100000 in
theorem apiErrorMsg_no_429 : ∀ status < 600, status = 429 ∨
    strContains (apiErrorMsg status) "429" = false := by decide

/-- C9: an HTTP response whose status is neither 2xx nor 429 makes
`postInfo` fail on that first response with the `API error: <status>`
message after exactly one attempt — only 429 enters the internal
backoff-and-retry path. -/
theorem non_2xx_fails_immediately (status : Nat) (transport : Nat → FetchOutcome)
    (hle : status ≤ 599) (hok : ¬ (200 ≤ status ∧ status ≤ 299))
    (h429 : status ≠ 429) (ht : transport 0 = FetchOutcome.resp status) :
    postInfo transport = (PostOutcome.failure (apiErrorMsg status), 1) := by
  have hc : strContains (apiErrorMsg status) "429" = false := by
    rcases apiErrorMsg_no_429 status (by omega) with h | h
    · exact absurd h h429
    · exact h
  have hok' : resOk status = false := by
    unfold resOk
    rcases Nat.lt_or_ge status 200 with h | h
    · simp [Nat.not_le.mpr h]
    · have h2 : ¬ status ≤ 299 := fun hh => hok ⟨h, hh⟩
      simp [h, h2]
  simp [postInfo, postInfoGo, ht, h429, hok', hc]

/-- Witness for C9 at status 500. -/
theorem non_2xx_fails_immediately_witness :
    postInfo (alwaysStatus 500) = (PostOutcome.failure (apiErrorMsg 500), 1) :=
  non_2xx_fails_immediately 500 (alwaysStatus 500) (by decide) (by decide)
    (by decide) rfl

/-- Constant `FILLS_PAGE_LIMIT` of part_000 line 229. -/
def FILLS_PAGE_LIMIT : Nat := 2000

/-- The pagination loop of `getAllUserFills` (part_000 lines 241-252),
generic in the item type, which the walker treats opaquely except for the
`time` field read through `timeOf` (line 250). `fetch` abstracts
`getUserFills(user, currentStart, endTime)`; its first argument is the
index of the call, so a mock transport can be call-ordered, and its second
the `currentStart` cursor. `fuel` is `maxPages - page`. Returns the
accumulated fills and the `currentStart` values of the issued calls in
order: the loop stops with no further call when the fuel is exhausted, when
a page comes back empty (line 244), or when a page is strictly smaller than
the page cap (line 248); otherwise the cursor advances to the last item's
time plus one (lines 250-251). -/
def walkPages {α : Type} [Inhabited α] (timeOf : α → Int)
    (fetch : Nat → Int → List α) : Nat → Nat → Int → List α × List Int
  | _, 0, _ => ([], [])
  | page, fuel + 1, cur =>
    if (fetch page cur).length = 0 then ([], [cur])
    else if (fetch page cur).length < FILLS_PAGE_LIMIT then (fetch page cur, [cur])
    else
      ((fetch page cur) ++
        (walkPages timeOf fetch (page + 1) fuel
          (timeOf ((fetch page cur).getLastD default) + 1)).1,
       cur ::
        (walkPages timeOf fetch (page + 1) fuel
          (timeOf ((fetch page cur).getLastD default) + 1)).2)

/-- Function `getAllUserFills` of part_000 lines 232-255, abstracted over
the single-page fetch: walks from `startTime` for at most `maxPages` pages.
(The inter-page `sleep(500)` of line 242 affects timing only.) -/
def getAllUserFills {α : Type} [Inhabited α] (timeOf : α → Int)
    (fetch : Nat → Int → List α) (startTime : Int) (maxPages : Nat) :
    List α × List Int :=
  walkPages timeOf fetch 0 maxPages startTime

theorem walkPages_calls_le {α : Type} [Inhabited α] (timeOf : α → Int)
    (g : Nat → Int → List α) :
    ∀ (fuel page : Nat) (cur : Int),
      (walkPages timeOf g page fuel cur).2.length ≤ fuel := by
  intro fuel
  induction fuel with
  | zero =>
    intro page cur
    simp [walkPages]
  | succ n ih =>
    intro page cur
    rw [walkPages]
    by_cases h0 : (g page cur).length = 0
    · rw [if_pos h0]
      simp
    · rw [if_neg h0]
      by_cases h1 : (g page cur).length < FILLS_PAGE_LIMIT
      · rw [if_pos h1]
        simp
      · rw [if_neg h1]
        simp only [List.length_cons]
        exact Nat.succ_le_succ (ih _ _)

theorem walkPages_starts_head {α : Type} [Inhabited α] (timeOf : α → Int)
    (g : Nat → Int → List α) (page fuel : Nat) (cur : Int) :
    (walkPages timeOf g page (fuel + 1) cur).2.head? = some cur := by
  rw [walkPages]
  by_cases h0 : (g page cur).length = 0
  · rw [if_pos h0]
    rfl
  · rw [if_neg h0]
    by_cases h1 : (g page cur).length < FILLS_PAGE_LIMIT
    · rw [if_pos h1]
      rfl
    · rw [if_neg h1]
      rfl

/-- C6: with a mock fetch returning pages of sizes 2000, 2000 and 1500 and
`maxPages ≥ 3`, `getAllUserFills` returns the three pages concatenated in
order — 5500 fills — and issues exactly 3 fetch calls, never a fourth.
More generally the walk never issues more than `maxPages` calls, and an
empty first page stops it with one call and no fills. -/
theorem pagination_terminates {α : Type} [Inhabited α] (timeOf : α → Int)
    (fetch : Nat → Int → List α) (s : Int) (mp : Nat) (p1 p2 p3 : List α)
    (hf0 : ∀ x, fetch 0 x = p1) (hf1 : ∀ x, fetch 1 x = p2)
    (hf2 : ∀ x, fetch 2 x = p3)
    (l1 : p1.length = 2000) (l2 : p2.length = 2000) (l3 : p3.length = 1500)
    (hmp : 3 ≤ mp) :
    (getAllUserFills timeOf fetch s mp).1 = p1 ++ (p2 ++ p3) ∧
    (getAllUserFills timeOf fetch s mp).1.length = 5500 ∧
    (getAllUserFills timeOf fetch s mp).2.length = 3 ∧
    (∀ (g : Nat → Int → List α) (s' : Int) (mp' : Nat),
      (getAllUserFills timeOf g s' mp').2.length ≤ mp') ∧
    (∀ (g : Nat → Int → List α) (s' : Int) (mp' : Nat), g 0 s' = [] →
      1 ≤ mp' → getAllUserFills timeOf g s' mp' = ([], [s'])) := by
  obtain ⟨m, rfl⟩ : ∃ m, mp = m + 3 := ⟨mp - 3, by omega⟩
  have step3 : ∀ (page : Nat) (cur : Int) (fuel : Nat) (p : List α),
      (∀ x, fetch page x = p) → p.length = 1500 →
      walkPages timeOf fetch page (fuel + 1) cur = (p, [cur]) := by
    intro page cur fuel p hf lp
    rw [walkPages, hf, if_neg (by omega), if_pos (by rw [lp]; decide)]
  have step : ∀ (page : Nat) (cur : Int) (fuel : Nat) (p : List α),
      (∀ x, fetch page x = p) → p.length = 2000 →
      walkPages timeOf fetch page (fuel + 1) cur =
        (p ++ (walkPages timeOf fetch (page + 1) fuel
            (timeOf (p.getLastD default) + 1)).1,
         cur :: (walkPages timeOf fetch (page + 1) fuel
            (timeOf (p.getLastD default) + 1)).2) := by
    intro page cur fuel p hf lp
    rw [walkPages, hf, if_neg (by omega),
      if_neg (by rw [lp]; unfold FILLS_PAGE_LIMIT; omega)]
  have hrun : getAllUserFills timeOf fetch s (m + 3) =
      (p1 ++ (p2 ++ p3),
       [s, timeOf (p1.getLastD default) + 1, timeOf (p2.getLastD default) + 1]) := by
    show walkPages timeOf fetch 0 (m + 1 + 1 + 1) s = _
    rw [step 0 s (m + 1 + 1) p1 hf0 l1, step 1 _ (m + 1) p2 hf1 l2,
      step3 2 _ m p3 hf2 l3]
  refine ⟨by rw [hrun], by rw [hrun]; simp [List.length_append, l1, l2, l3],
    by rw [hrun]; rfl, ?_, ?_⟩
  · intro g s' mp'
    exact walkPages_calls_le timeOf g mp' 0 s'
  · intro g s' mp' hempty hmp'
    obtain ⟨k, rfl⟩ : ∃ k, mp' = k + 1 := ⟨mp' - 1, by omega⟩
    show walkPages timeOf g 0 (k + 1) s' = ([], [s'])
    rw [walkPages, hempty]
    simp

/-- Mock fetch for the C6 witness: three call-ordered pages of sizes
2000, 2000 and 1500. -/
def c6Fetch : Nat → Int → List Int :=
  fun i _ =>
    if i = 0 then List.replicate 2000 0
    else if i = 1 then List.replicate 2000 0
    else List.replicate 1500 0

/-- Witness for C6 at the concrete three-page mock. -/
theorem pagination_terminates_witness :
    (getAllUserFills (fun x : Int => x) c6Fetch 0 5).1.length = 5500 ∧
    (getAllUserFills (fun x : Int => x) c6Fetch 0 5).2.length = 3 := by
  have h := pagination_terminates (fun x : Int => x) c6Fetch 0 5
    (List.replicate 2000 0) (List.replicate 2000 0) (List.replicate 1500 0)
    (fun _ => rfl) (fun _ => rfl) (fun _ => rfl)
    (by rw [List.length_replicate]) (by rw [List.length_replicate])
    (by rw [List.length_replicate]) (by omega)
  exact ⟨h.2.1, h.2.2.1⟩

/-- C7: whenever the first fetched page has exactly `FILLS_PAGE_LIMIT`
items, the second fetch call is issued with `currentStart` equal to the
last item's time plus one, so the boundary record is not fetched twice. -/
theorem pagination_cursor_advance {α : Type} [Inhabited α] (timeOf : α → Int)
    (fetch : Nat → Int → List α) (s : Int) (mp : Nat) (p1 : List α)
    (hf0 : ∀ x, fetch 0 x = p1) (l1 : p1.length = FILLS_PAGE_LIMIT)
    (hmp : 2 ≤ mp) :
    (getAllUserFills timeOf fetch s mp).2.get? 1 =
      some (timeOf (p1.getLastD default) + 1) := by
  obtain ⟨m, rfl⟩ : ∃ m, mp = m + 2 := ⟨mp - 2, by omega⟩
  show (walkPages timeOf fetch 0 (m + 1 + 1) s).2.get? 1 = _
  rw [walkPages, hf0, if_neg (by rw [l1]; decide),
    if_neg (by rw [l1]; omega)]
  rw [List.get?_cons_succ]
  have hh := walkPages_starts_head timeOf fetch 1 m
    (timeOf (p1.getLastD default) + 1)
  rw [← hh]
  cases (walkPages timeOf fetch 1 (m + 1) (timeOf (p1.getLastD default) + 1)).2 <;> rfl

/-- Mock fetch for the C7 witness: a full page whose last item has time
100, then an empty page. -/
def c7Fetch : Nat → Int → List Int :=
  fun i _ => if i = 0 then List.replicate 1999 0 ++ [100] else []

/-- Witness for C7: the second call is issued with cursor 101. -/
theorem pagination_cursor_advance_witness :
    (getAllUserFills (fun x : Int => x) c7Fetch 0 5).2.get? 1 = some 101 := by
  have h := pagination_cursor_advance (fun x : Int => x) c7Fetch 0 5
    (List.replicate 1999 0 ++ [100]) (fun _ => rfl)
    (by rw [List.length_append, List.length_replicate]; rfl)
    (by omega)
  rw [List.getLastD_concat] at h
  exact h

/-- Function `loadWeightLog` of part_000 lines 30-39, with the external
effects abstracted: `getItem` is the result of the `localStorage.getItem`
call (`Except.error` when the read itself throws, `none` for a missing
slot), and `parse` abstracts `JSON.parse` plus the `WeightEntry[]` cast
(`Except.error` when parsing throws). The surrounding try/catch swallows
every thrown error and leaves the in-memory ledger `current` unchanged; on
success the parsed entries are filtered by the window cutoff (line 36).
The embedding is total: `loadWeightLog` never throws. -/
def loadWeightLog (current : List WeightEntry)
    (getItem : Except String (Option String))
    (parse : String → Except String (List WeightEntry)) (now : Int) :
    List WeightEntry :=
  match getItem with
  | .error _ => current
  | .ok none => current
  | .ok (some raw) =>
    match parse raw with
    | .error _ => current
    | .ok parsed => pruneLog now parsed

/-- Function `saveWeightLog` of part_000 lines 41-47: the outcome of the
`localStorage.setItem` write is ignored (failures are swallowed by the
try/catch) and the in-memory ledger is left untouched. -/
def saveWeightLog (log : List WeightEntry)
    (_setItem : String → Except String Unit) : List WeightEntry := log

/-- C8: when the stored value is missing, the read fails, or the raw string
does not parse, `loadWeightLog` returns without throwing and leaves the
in-memory ledger unchanged — in particular the ledger stays empty at module
start — and `saveWeightLog` leaves the in-memory ledger unchanged and
authoritative whatever the write outcome. -/
theorem storage_corruption_nonfatal (current : List WeightEntry)
    (getItem : Except String (Option String))
    (parse : String → Except String (List WeightEntry)) (now : Int)
    (err raw perr : String) (setItem : String → Except String Unit)
    (h : getItem = .error err ∨ getItem = .ok none ∨
      (getItem = .ok (some raw) ∧ parse raw = .error perr)) :
    loadWeightLog current getItem parse now = current ∧
    loadWeightLog [] getItem parse now = [] ∧
    saveWeightLog current setItem = current := by
  refine ⟨?_, ?_, rfl⟩ <;>
  · rcases h with h | h | ⟨h1, h2⟩
    · rw [h]
      rfl
    · rw [h]
      rfl
    · rw [h1]
      simp [loadWeightLog, h2]

/-- Witness for C8: a slot holding a string that fails to parse. -/
theorem storage_corruption_nonfatal_witness :
    loadWeightLog [⟨2, 100⟩] (Except.ok (some "not json"))
      (fun _ => Except.error "SyntaxError") 1000 = [⟨2, 100⟩] ∧
    loadWeightLog [] (Except.ok (some "not json"))
      (fun _ => Except.error "SyntaxError") 1000 = [] ∧
    saveWeightLog [⟨2, 100⟩]
      (fun _ => Except.error "QuotaExceededError") = [⟨2, 100⟩] :=
  storage_corruption_nonfatal [⟨2, 100⟩] (Except.ok (some "not json"))
    (fun _ => Except.error "SyntaxError") 1000 "" "not json" "SyntaxError"
    (fun _ => Except.error "QuotaExceededError")
    (Or.inr (Or.inr ⟨rfl, rfl⟩))

/-- Nondecreasing-timestamp order of the ledger. -/
def TsSorted (log : List WeightEntry) : Prop :=
  log.Pairwise (fun a b => a.ts ≤ b.ts)

instance (log : List WeightEntry) : Decidable (TsSorted log) := by
  unfold TsSorted
  infer_instance

/-- The four operations that assign the module-level `weightLog` of
part_000: a `waitForBudget` record (line 78: push at the current time), an
`onRateLimited` replacement (line 62), a `consumedWeight` pruning pass
(line 54), and a successful `loadWeightLog` (line 36: the stored entries
filtered by the window cutoff). -/
inductive LedgerOp where
  | record (w : Nat) (t : Int)
  | rateLimited (t : Int)
  | prune (t : Int)
  | load (entries : List WeightEntry) (t : Int)

def LedgerOp.time : LedgerOp → Int
  | .record _ t => t
  | .rateLimited t => t
  | .prune t => t
  | .load _ t => t

def applyLedgerOp (log : List WeightEntry) : LedgerOp → List WeightEntry
  | .record w t => log ++ [⟨w, t⟩]
  | .rateLimited t => onRateLimited t
  | .prune t => pruneLog t log
  | .load es t => pruneLog t es

def runLedgerOps (log : List WeightEntry) (ops : List LedgerOp) :
    List WeightEntry :=
  ops.foldl applyLedgerOp log

/-- Well-formed operation sequence at clock `c`: operation times never
decrease (`Date.now()` is monotone), and the entries a `load` reads back
are themselves in nondecreasing order with timestamps no later than the
load — as holds for any ledger this module previously persisted through
`saveWeightLog`. -/
def LedgerOpsOK (c : Int) : List LedgerOp → Prop
  | [] => True
  | op :: rest =>
    c ≤ op.time ∧
    (match op with
     | .load es t => TsSorted es ∧ ∀ e ∈ es, e.ts ≤ t
     | _ => True) ∧
    LedgerOpsOK op.time rest

def ledgerTraceEnd (c : Int) : List LedgerOp → Int
  | [] => c
  | op :: rest => ledgerTraceEnd op.time rest

theorem tsSorted_filter (p : WeightEntry → Bool) (l : List WeightEntry)
    (h : TsSorted l) : TsSorted (l.filter p) :=
  h.sublist (List.filter_sublist l)

theorem ledger_sorted_aux (ops : List LedgerOp) :
    ∀ (log : List WeightEntry) (c : Int), TsSorted log →
      (∀ e ∈ log, e.ts ≤ c) → LedgerOpsOK c ops →
      TsSorted (runLedgerOps log ops) ∧
      ∀ e ∈ runLedgerOps log ops, e.ts ≤ ledgerTraceEnd c ops := by
  induction ops with
  | nil =>
    intro log c hs hb _
    exact ⟨hs, hb⟩
  | cons op rest ih =>
    intro log c hs hb hok
    simp only [LedgerOpsOK] at hok
    obtain ⟨h1, h2, h3⟩ := hok
    have hstep : TsSorted (applyLedgerOp log op) ∧
        ∀ e ∈ applyLedgerOp log op, e.ts ≤ op.time := by
      cases op with
      | record w t =>
        constructor
        · refine List.pairwise_append.mpr ⟨hs, List.pairwise_singleton _ _, ?_⟩
          intro a ha b hbm
          rcases List.mem_singleton.mp hbm with rfl
          exact le_trans (hb a ha) h1
        · intro e he
          rcases List.mem_append.mp he with hm | hm
          · exact le_trans (hb e hm) h1
          · rcases List.mem_singleton.mp hm with rfl
            exact le_refl _
      | rateLimited t =>
        constructor
        · exact List.pairwise_singleton _ _
        · intro e he
          rcases List.mem_singleton.mp he with rfl
          show t - WEIGHT_WINDOW_MS / 2 ≤ t
          simp only [WEIGHT_WINDOW_MS]
          omega
      | prune t =>
        constructor
        · exact tsSorted_filter _ _ hs
        · intro e he
          have hm := List.mem_of_mem_filter he
          exact le_trans (hb e hm) h1
      | load es t =>
        constructor
        · exact tsSorted_filter _ _ h2.1
        · intro e he
          exact h2.2 e (List.mem_of_mem_filter he)
    exact ih (applyLedgerOp log op) op.time hstep.1 hstep.2 h3

theorem tsSorted_head_min (l : List WeightEntry) (h : TsSorted l)
    (d : WeightEntry) : ∀ e ∈ l, (l.headD d).ts ≤ e.ts := by
  cases l with
  | nil =>
    intro e he
    cases he
  | cons a t =>
    intro e he
    rcases List.mem_cons.mp he with rfl | hm
    · exact le_refl _
    · exact (List.pairwise_cons.mp h).1 e hm

theorem shiftPrune_eq_pruneLog (l : List WeightEntry) (h : TsSorted l)
    (now : Int) : shiftPrune (now - WEIGHT_WINDOW_MS) l = pruneLog now l := by
  induction l with
  | nil => rfl
  | cons e t ih =>
    rw [shiftPrune]
    by_cases hc : e.ts < now - WEIGHT_WINDOW_MS
    · rw [if_pos hc, ih h.of_cons]
      unfold pruneLog
      rw [List.filter_cons, if_neg]
      simp only [decide_eq_true_eq]
      omega
    · rw [if_neg hc]
      unfold pruneLog
      rw [List.filter_cons, if_pos (decide_eq_true (by omega))]
      congr 1
      symm
      apply List.filter_eq_self.mpr
      intro a ha
      have hle := (List.pairwise_cons.mp h).1 a ha
      exact decide_eq_true (by omega)

/-- C10: starting from the empty module ledger, every well-formed sequence
of `weightLog` operations (record, onRateLimited, pruning, load) leaves the
entries sorted by timestamp in nondecreasing order; hence the front entry is
always an oldest one (justifying the `oldest + WEIGHT_WINDOW_MS - now`
expiry computation in `waitForBudget`), and on sorted ledgers the front-only
shift-pruning of hyperliquid.ts computes exactly the window filter of
part_000's `consumedWeight`. -/
theorem ledger_order_invariant (ops : List LedgerOp)
    (hok : LedgerOpsOK 0 ops) :
    TsSorted (runLedgerOps [] ops) ∧
    (∀ d : WeightEntry, ∀ e ∈ runLedgerOps [] ops,
      ((runLedgerOps [] ops).headD d).ts ≤ e.ts) ∧
    (∀ l : List WeightEntry, TsSorted l → ∀ now : Int,
      shiftPrune (now - WEIGHT_WINDOW_MS) l = pruneLog now l) := by
  have h := ledger_sorted_aux ops [] 0 (List.Pairwise.nil) (by intro e he; cases he) hok
  exact ⟨h.1, fun d => tsSorted_head_min _ h.1 d,
    fun l hl now => shiftPrune_eq_pruneLog l hl now⟩

/-- Operation sequence for the C10 witness: a record, a pruning pass, a 429
mark, a reload of previously saved entries, and another record. -/
def ledgerWitnessOps : List LedgerOp :=
  [LedgerOp.record 5 100, LedgerOp.prune 150, LedgerOp.rateLimited 300,
   LedgerOp.load [⟨1, 250⟩, ⟨2, 260⟩] 400, LedgerOp.record 7 500]

/-- Witness for C10 at a concrete operation sequence. -/
theorem ledger_order_invariant_witness :
    TsSorted (runLedgerOps [] ledgerWitnessOps) := by
  have hok : LedgerOpsOK 0 ledgerWitnessOps := by
    refine ⟨by decide, trivial, by decide, trivial, by decide, trivial,
      by decide, ⟨?_, ?_⟩, by decide, trivial, trivial⟩
    · decide
    · decide
  exact (ledger_order_invariant ledgerWitnessOps hok).1

end Hlbot
